import Mathlib

/-!
Shallow embedding of the worker-registry, long-poll notification and
process-bridge core of the dc-federated repository
(src/dc_federated/backend/_worker_manager.py, dcf_server.py,
zmq_interface.py, zqm_interface.py), together with proofs settling the
frozen specification claims about it.

Conventions of the embedding:
* Python dictionaries become association lists with in-place overwrite
  (`alistSet`), matching the insertion-order semantics of `dict`.
* Fallible Python code (statements that can raise) is modelled with
  `Except PyErr`; code paths that provably cannot raise are modelled as
  plain functions.
* The Ed25519 layer of PyNaCl is modelled symbolically (Dolev-Yao style):
  a signed message is either a term `SignedMsg.sig key signedOver attached`
  standing for the hex encoding of a detached signature made with the
  secret key of `key` over `signedOver`, concatenated with the attached
  payload `attached`, or `SignedMsg.raw s` standing for any other string.
  Verification succeeds exactly when the verifying key matches the signing
  key and the signed-over payload equals the attached payload; a raw
  string that is not hex-decodable makes the decoder raise (modelling
  `binascii.Error` escaping the `except BadSignatureError` handler).
* The system clock read by `time.time()` inside
  `generate_id_for_worker` is modelled as a counter `clock` in the state,
  advanced at every read: successive readings are distinct.  The sha224
  hex digest of the printed reading is modelled by a parameter
  `hashTime : Nat -> String`; properties needing collision-freeness take
  injectivity of `hashTime` as an explicit hypothesis.
* The durable TinyDB key store (`public_keys_db`) is an external
  collaborator (spec section 1, OUT OF SCOPE) and is not modelled.
-/

namespace DCFed

/-- Association-list lookup with the first-match semantics of a Python
dict (keys are unique in all lists we build, so first match is the match). -/
def alistGet {κ α : Type} [DecidableEq κ] (d : List (κ × α)) (k : κ) : Option α :=
  match d with
  | [] => none
  | (k₁, v) :: rest => if k₁ = k then some v else alistGet rest k

/-- Association-list update with Python-dict semantics: overwrite in place
when the key is present, append when absent. -/
def alistSet {κ α : Type} [DecidableEq κ] (d : List (κ × α)) (k : κ) (v : α) :
    List (κ × α) :=
  match d with
  | [] => [(k, v)]
  | (k₁, v₁) :: rest =>
      if k₁ = k then (k, v) :: rest else (k₁, v₁) :: alistSet rest k v

deriving instance DecidableEq for Except

/-- Errors that can escape the modelled Python code. `binasciiError` models
the `binascii.Error` raised by `HexEncoder` on a non-hex input, which the
`except BadSignatureError` handler of `authenticate_worker` does not catch. -/
inductive PyErr : Type
  | binasciiError
  | typeError
  | valueError
  deriving DecidableEq, Repr

/-- Hexadecimal digit test, as accepted by `binascii.unhexlify`. -/
def isHexDigitChar (c : Char) : Bool :=
  (decide (Char.ofNat 48 ≤ c) && decide (c ≤ Char.ofNat 57)) ||
  (decide (Char.ofNat 97 ≤ c) && decide (c ≤ Char.ofNat 102)) ||
  (decide (Char.ofNat 65 ≤ c) && decide (c ≤ Char.ofNat 70))

/-- Whether a string hex-decodes without error: even length, all hex digits
(model of `binascii.unhexlify` succeeding). -/
def hexDecodable (s : String) : Bool :=
  decide (s.length % 2 = 0) && s.data.all isHexDigitChar

/-- Whether `VerifyKey(s.encode(), encoder=HexEncoder)` succeeds: the string
must hex-decode to exactly the 32 bytes of an Ed25519 verify key. -/
def validKey (s : String) : Bool :=
  decide (s.length = 64) && s.data.all isHexDigitChar

/-- Symbolic model of the `signed_message` strings handed to
`authenticate_worker`.  `sig key signedOver attached` stands for the hex
string `hex(detached_signature(secret_of key, signedOver) ++ attached)`;
`raw s` stands for any string that is not of that shape. -/
inductive SignedMsg : Type
  | raw (s : String)
  | sig (key signedOver attached : String)
  deriving DecidableEq, Repr

/-- Outcome of `VerifyKey.verify` on a signed message. -/
inductive VerifyOutcome : Type
  | ok
  | badSignature
  | decodeError
  deriving DecidableEq, Repr

/-- Symbolic model of `self.public_keys[public_key_str].verify(signed_message,
encoder=HexEncoder)`.  A well-formed signed message (always hex) verifies
exactly when it was signed with the secret key of `k` and the signature
covers the attached payload; any other hex string raises
`BadSignatureError`; a non-hex string raises `binascii.Error` in the
decoder (`decodeError`). -/
def verifyMsg (k : String) (m : SignedMsg) : VerifyOutcome :=
  match m with
  | .raw s => if hexDecodable s then .badSignature else .decodeError
  | .sig key signedOver attached =>
      if key = k ∧ signedOver = attached then .ok else .badSignature

/-- Sentinel for failed operations.  Modelled from the spec: the constant
`INVALID_WORKER` lives in `dc_federated/backend/_constants.py`, which is not
among the provided sources; the spec calls it the sentinel INVALID value. -/
def INVALID_WORKER : String := "INVALID_WORKER"

/-- Modelled from the spec: `message_seriously_wrong` lives in
`dc_federated/backend/backend_utils.py`, which is not among the provided
sources; it formats an internal-inconsistency report around the given text. -/
def message_seriously_wrong (s : String) : String :=
  "Something went seriously wrong - " ++ s

/-- State of a `WorkerManager` (fields of `_worker_manager.WorkerManager`).
`publicKeys` holds the keys of the dict `public_keys` (the stored value
`VerifyKey(k)` is determined by the key `k`, so only the keys are kept);
`clock` is the modelled system clock consumed in unauthenticated id
generation. -/
structure WMState : Type where
  doAuth : Bool
  publicKeys : List String
  allowedWorkers : List String
  registeredWorkers : List (String × Bool)
  clock : Nat
  deriving DecidableEq, Repr

/-- Initial state of a freshly constructed `WorkerManager` with no key-list
file and no previous-session keys: all tables empty. -/
def initWM (doAuth : Bool) : WMState :=
  { doAuth := doAuth, publicKeys := [], allowedWorkers := [],
    registeredWorkers := [], clock := 0 }

/-- Embeds `WorkerManager.add_public_key`: no-op success when
authentication is disabled or the key is already stored; otherwise the key
is stored iff `VerifyKey` construction succeeds (`validKey`). -/
def add_public_key (st : WMState) (k : String) : Bool × WMState :=
  if !st.doAuth then (true, st)
  else if k ∈ st.publicKeys then (true, st)
  else if validKey k then (true, { st with publicKeys := st.publicKeys ++ [k] })
  else (false, st)

/-- Embeds `WorkerManager.delete_public_key`: no-op when authentication is
disabled or the key is unknown, removal otherwise. -/
def delete_public_key (st : WMState) (k : String) : Bool × WMState :=
  if !st.doAuth then (true, st)
  else if k ∈ st.publicKeys then (true, { st with publicKeys := st.publicKeys.erase k })
  else (true, st)

section WorkerManagerOps

-- Model of `t ↦ hashlib.sha224(str(t).encode()).hexdigest()` applied to
-- the t-th clock reading.
variable (hashTime : Nat → String)

/-- Embeds `WorkerManager.generate_id_for_worker`: the key itself in
authenticated mode; in unauthenticated mode a fresh token derived from the
current clock reading, suffixed with the fixed marker. -/
def generate_id_for_worker (st : WMState) (k : String) : String × WMState :=
  if st.doAuth then (k, st)
  else (hashTime st.clock ++ "_unauthenticated", { st with clock := st.clock + 1 })

/-- Embeds `WorkerManager._add_worker`: derive the id; report an
internal-inconsistency message when authenticating and the key is absent
from `public_keys`; otherwise insert into `allowed_workers` with
registration status `false` when new, or report `(id, false)` when already
present. -/
def _add_worker (st : WMState) (k : String) : (String × Bool) × WMState :=
  let workerId := (generate_id_for_worker hashTime st k).1
  let st₁ := (generate_id_for_worker hashTime st k).2
  if st₁.doAuth = true ∧ k ∉ st₁.publicKeys then
    ((message_seriously_wrong "trying to add worker without adding worker first", false), st₁)
  else if workerId ∉ st₁.allowedWorkers then
    (((workerId, true)),
      { st₁ with allowedWorkers := st₁.allowedWorkers ++ [workerId],
                 registeredWorkers := alistSet st₁.registeredWorkers workerId false })
  else ((workerId, false), st₁)

/-- Embeds `WorkerManager.add_worker`: in authenticated mode first validate
and store the public key, failing with the INVALID sentinel on a malformed
key; then run the internal add. -/
def add_worker (st : WMState) (k : String) : (String × Bool) × WMState :=
  if st.doAuth then
    if (add_public_key st k).1 then _add_worker hashTime (add_public_key st k).2 k
    else ((INVALID_WORKER, false), (add_public_key st k).2)
  else _add_worker hashTime st k

/-- Embeds `WorkerManager.authenticate_worker`: trivially true when
authentication is disabled; false when the key was never stored; otherwise
the outcome of signature verification, where a `binascii.Error` raised by
hex-decoding the signed message escapes the `except BadSignatureError`
handler. -/
def authenticate_worker (st : WMState) (k : String) (m : SignedMsg) :
    Except PyErr Bool :=
  if !st.doAuth then .ok true
  else if k ∉ st.publicKeys then .ok false
  else
    match verifyMsg k m with
    | .ok => .ok true
    | .badSignature => .ok false
    | .decodeError => .error .binasciiError

/-- Embeds `WorkerManager.authenticate_and_add_worker`: authenticate, then
run the internal add on success; return `(INVALID_WORKER, false)` on
authentication failure; an exception raised by authentication propagates. -/
def authenticate_and_add_worker (st : WMState) (k : String) (m : SignedMsg) :
    Except PyErr ((String × Bool) × WMState) :=
  match authenticate_worker st k m with
  | .error e => .error e
  | .ok true => .ok (_add_worker hashTime st k)
  | .ok false => .ok ((INVALID_WORKER, false), st)

end WorkerManagerOps

/-- Embeds `WorkerManager.set_registration_status`: flip the status when the
worker is allowed, return the INVALID sentinel without mutation otherwise.
(The read of the old status in the source is used only for logging.) -/
def set_registration_status (st : WMState) (w : String) (b : Bool) :
    String × WMState :=
  if w ∈ st.allowedWorkers then
    (w, { st with registeredWorkers := alistSet st.registeredWorkers w b })
  else (INVALID_WORKER, st)

/-- Embeds `WorkerManager.remove_worker`: when the worker is allowed, remove
it from `allowed_workers` and from `public_keys`; the `registered_workers`
entry is left untouched by the source.  Returns the INVALID sentinel without
mutation for an unknown worker. -/
def remove_worker (st : WMState) (w : String) : String × WMState :=
  if w ∈ st.allowedWorkers then
    let st₁ := { st with allowedWorkers := st.allowedWorkers.erase w }
    (w, (delete_public_key st₁ w).2)
  else (INVALID_WORKER, st)

/-- Embeds `WorkerManager.is_worker_allowed`. -/
def is_worker_allowed (st : WMState) (w : String) : Bool :=
  w ∈ st.allowedWorkers

/-- Embeds `WorkerManager.is_worker_registered`: membership in
`registered_workers` conjoined with the stored flag. -/
def is_worker_registered (st : WMState) (w : String) : Bool :=
  (alistGet st.registeredWorkers w).getD false

/-! ## Long-poll notification engine (`dcf_server.DCFServer`)

The engine lives in `notify_me_if_gm_version_updated` (install and
supersede), `check_model_version_updated` (the polling greenlet that
resolves a wait) and `admin_delete_worker` (worker removal).  Greenlets and
their result queues are modelled by natural-number request ids drawn from
the counter `nextReq`: `reqDict` is `model_version_req_dict` with each
`(greenlet, body)` pair represented by its id, `live` is the set of
greenlets that have been started and neither killed nor finished (paired
with the worker they poll for), and `chans` records the terminal results
put to each queue (the trailing `StopIteration` marker is implicit).

Gevent schedules greenlets cooperatively, so each of the code blocks below
runs atomically between yield points; the step relation `SysStep`
interleaves them in any order. -/

/-- Terminal results a wait's result queue can carry: the
`GLOBAL_MODEL_UPDATED_STRING` delivery, the supersession message of
`notify_me_if_gm_version_updated`, and the "removed" marker that the spec
requires worker removal to deliver. -/
inductive Msg : Type
  | updated
  | superseded
  | removed
  deriving DecidableEq, Repr

/-- State of a `DCFServer`: the worker manager plus the notification
engine bookkeeping. -/
structure SysState : Type where
  wm : WMState
  reqDict : List (String × List Nat)
  live : List (Nat × String)
  chans : List (Nat × List Msg)
  nextReq : Nat
  deriving DecidableEq, Repr

/-- Initial server state over a fresh worker manager. -/
def initSys (doAuth : Bool) : SysState :=
  { wm := initWM doAuth, reqDict := [], live := [], chans := [], nextReq := 0 }

/-- The list of pending request ids for a worker
(`model_version_req_dict[w]`, empty when the key is absent). -/
def reqsOf (s : SysState) (w : String) : List Nat :=
  (alistGet s.reqDict w).getD []

/-- The terminal results delivered so far to the queue of request `r`. -/
def chanOf (s : SysState) (r : Nat) : List Msg :=
  (alistGet s.chans r).getD []

/-- Embeds the supersession block of `notify_me_if_gm_version_updated`: if
the worker has a pending entry, pop it, put the supersession message (and
`StopIteration`) to its queue, and kill its greenlet. -/
def supersedeOld (s : SysState) (w : String) : SysState :=
  match (reqsOf s w).getLast? with
  | none => s
  | some r =>
      { s with reqDict := alistSet s.reqDict w (reqsOf s w).dropLast,
               chans := alistSet s.chans r (chanOf s r ++ [Msg.superseded]),
               live := s.live.erase (r, w) }

/-- Embeds the rest of `notify_me_if_gm_version_updated` after the checks
pass: supersede any pending entry, then create a fresh queue and greenlet,
record them in `model_version_req_dict`, and start the greenlet. -/
def applyNewReq (s : SysState) (w : String) : SysState :=
  let s₁ := supersedeOld s w
  { s₁ with reqDict := alistSet s₁.reqDict w (reqsOf s₁ w ++ [s₁.nextReq]),
            live := s₁.live ++ [(s₁.nextReq, w)],
            chans := alistSet s₁.chans s₁.nextReq [],
            nextReq := s₁.nextReq + 1 }

/-- Embeds the delivery tail of `check_model_version_updated`, run by the
greenlet `r` of worker `w` once the staleness predicate turns false: put the
updated marker (and `StopIteration`) to its queue, then pop the worker's
entry from `model_version_req_dict` (a no-op on an empty list, as in the
guarded `pop()`); the greenlet finishes. -/
def applyResolve (s : SysState) (w : String) (r : Nat) : SysState :=
  { s with chans := alistSet s.chans r (chanOf s r ++ [Msg.updated]),
           reqDict := alistSet s.reqDict w (reqsOf s w).dropLast,
           live := s.live.erase (r, w) }

/-- Embeds `DCFServer.admin_delete_worker`: read the registration flag (for
the unregister callback), set the registration status to false, then remove
the worker — passing `set_registration_status`'s return value on to
`remove_worker` as the source does.  The notification bookkeeping is not
touched. -/
def applyAdminDelete (s : SysState) (w : String) : SysState :=
  let wid := (set_registration_status s.wm w false).1
  let wm₁ := (set_registration_status s.wm w false).2
  { s with wm := (remove_worker wm₁ wid).2 }

section SysSteps

variable (hashTime : Nat → String)

/-- Runs `add_worker` for its state effect. -/
def wmAddState (st : WMState) (k : String) : WMState :=
  (add_worker hashTime st k).2

/-- Runs `authenticate_and_add_worker` for its state effect; when the call
raises, no mutation has happened, so the state is unchanged. -/
def wmAuthAddState (st : WMState) (k : String) (m : SignedMsg) : WMState :=
  match authenticate_and_add_worker hashTime st k m with
  | .error _ => st
  | .ok (_, st₁) => st₁

/-- One atomic scheduling step of the server.  `newReq` fires when a
worker's long-poll request passes the admission checks of
`notify_me_if_gm_version_updated` (allowed, challenge verified — the
`verify_challenge` method is absent from the provided registry source and
is modelled from the spec as an admission gate — and registered); since
none of those checks read or write the notification bookkeeping, the step
is stated without them, which only enlarges the set of states quantified
over.  `resolve` fires when a started, unkilled greenlet's staleness
predicate turns false. -/
inductive SysStep : SysState → SysState → Prop
  | newReq (s : SysState) (w : String) : SysStep s (applyNewReq s w)
  | resolve (s : SysState) (w : String) (r : Nat) (hlive : (r, w) ∈ s.live) :
      SysStep s (applyResolve s w r)
  | adminDelete (s : SysState) (w : String) : SysStep s (applyAdminDelete s w)
  | wmAdd (s : SysState) (k : String) :
      SysStep s { s with wm := wmAddState hashTime s.wm k }
  | wmAuthAdd (s : SysState) (k : String) (m : SignedMsg) :
      SysStep s { s with wm := wmAuthAddState hashTime s.wm k m }
  | wmSetStatus (s : SysState) (w : String) (b : Bool) :
      SysStep s { s with wm := (set_registration_status s.wm w b).2 }

/-- Server states reachable from a fresh server. -/
inductive SysReach : SysState → Prop
  | init (doAuth : Bool) : SysReach (initSys doAuth)
  | step {s s₁ : SysState} (h : SysReach s) (hs : SysStep hashTime s s₁) : SysReach s₁

/-- Registry states reachable from a fresh worker manager by `add_worker`,
`authenticate_and_add_worker`, `set_registration_status` and
`remove_worker`, where `remove_worker` is only invoked on identities that
are not currently registered — the discipline of the server's admin
removal path, which unregisters before removing. -/
inductive WMReachUnregRemove : WMState → Prop
  | init (doAuth : Bool) : WMReachUnregRemove (initWM doAuth)
  | add {st : WMState} (h : WMReachUnregRemove st) (k : String) :
      WMReachUnregRemove (wmAddState hashTime st k)
  | authAdd {st : WMState} (h : WMReachUnregRemove st) (k : String) (m : SignedMsg) :
      WMReachUnregRemove (wmAuthAddState hashTime st k m)
  | setStatus {st : WMState} (h : WMReachUnregRemove st) (w : String) (b : Bool) :
      WMReachUnregRemove (set_registration_status st w b).2
  | remove {st : WMState} (h : WMReachUnregRemove st) (w : String)
      (hw : is_worker_registered st w = false) :
      WMReachUnregRemove (remove_worker st w).2

/-- Iterates `generate_id_for_worker` over a list of caller arguments,
returning the produced identities and the final state. -/
def genIds (st : WMState) : List String → List String × WMState
  | [] => ([], st)
  | k :: ks =>
      let st₁ := (generate_id_for_worker hashTime st k).2
      ((generate_id_for_worker hashTime st k).1 :: (genIds st₁ ks).1,
        (genIds st₁ ks).2)

end SysSteps

/-- The condition under which `_add_worker` takes its
`message_seriously_wrong` branch (the source evaluates it after
`generate_id_for_worker`, which changes neither `do_public_key_auth` nor
`public_keys`). -/
def addWorkerInternalGuard (st : WMState) (k : String) : Prop :=
  st.doAuth = true ∧ k ∉ st.publicKeys

instance (st : WMState) (k : String) : Decidable (addWorkerInternalGuard st k) := by
  unfold addWorkerInternalGuard; infer_instance

/-- The allow/register coupling property on the two registry tables: every
identity whose registration flag reads true is an allowed worker. -/
def regSub (allowed : List String) (reg : List (String × Bool)) : Prop :=
  ∀ w, (alistGet reg w).getD false = true → w ∈ allowed

/-- Invariant: the pending-notification table holds at most one entry per
worker. -/
def pendingAtMostOne (s : SysState) : Prop :=
  ∀ w, (reqsOf s w).length ≤ 1

/-- Invariant: every request id recorded in the pending table or the live
set is strictly below the id counter (fresh ids are never reused). -/
def reqIdsFresh (s : SysState) : Prop :=
  (∀ w r, r ∈ reqsOf s w → r < s.nextReq) ∧ ∀ p ∈ s.live, p.1 < s.nextReq

/-- The combined notification-engine invariant carried through the
reachability induction. -/
def SysInv (s : SysState) : Prop :=
  pendingAtMostOne s ∧ reqIdsFresh s ∧ s.live.Nodup

/-- Whether `HexEncoder` decodes the signed message without raising:
well-formed signed messages are hex by construction, raw strings decode
iff `hexDecodable`. -/
def msgDecodable (m : SignedMsg) : Bool :=
  match m with
  | .raw s => hexDecodable s
  | .sig _ _ _ => true

/-! ## Process bridge (`zmq_interface.py` and `zqm_interface.py`)

Both files implement the same request/reply contract; the claims compare
their `is_global_model_most_recent` exchange.  Python runtime values that
cross the boundary are modelled by `PyVal` (integers restricted to the
naturals that model versions are); a zmq frame is a byte string, carried
here as a `String`.  The decimal codec of the builtins `str` and `int` is
modelled by the parameters `natRepr` (printing) and `natParse` (parsing,
`none` when `int()` raises `ValueError`). -/

/-- Dynamically typed Python values crossing the bridge. -/
inductive PyVal : Type
  | pyBytes (s : String)
  | pyStr (s : String)
  | pyInt (n : Nat)
  | pyBool (b : Bool)
  deriving DecidableEq, Repr

/-- The request tag of the exchange under comparison. -/
def tagIsMostRecent : String := "is_global_model_most_recent"

/-- Concrete model of the builtin `int` on decimal byte strings, used to
instantiate the parsing parameter of the bridge embedding on concrete
inputs (`int()` raises `ValueError` on a non-decimal string, modelled as
`none`). -/
def pyIntParse (s : String) : Option Nat :=
  if s.data ≠ [] ∧ s.data.all Char.isDigit then
    some (s.data.foldl (fun acc c => acc * 10 + (c.toNat - 48)) 0)
  else none

section Bridge

variable (natRepr : Nat → String) (natParse : String → Option Nat)

/-- Model of the builtin `str` on the values a version can be. -/
def pyStrOf : PyVal → String
  | .pyBytes s => "bytes:" ++ s
  | .pyStr s => s
  | .pyInt n => natRepr n
  | .pyBool b => if b then "True" else "False"

/-- Model of `socket.send_multipart`: every frame must be a bytes object,
anything else raises `TypeError`. -/
def sendMultipartOk : List PyVal → Except PyErr (List String)
  | [] => .ok []
  | f :: fs =>
      match f with
      | .pyBytes s =>
          match sendMultipartOk fs with
          | .ok rest => .ok (s :: rest)
          | .error e => .error e
      | _ => .error .typeError

/-- Model of `socket.send` on a non-frame value: only bytes are accepted,
anything else raises `TypeError`. -/
def sendRaw (v : PyVal) : Except PyErr PyVal :=
  match v with
  | .pyBytes s => .ok (.pyBytes s)
  | _ => .error .typeError

/-- Embeds the `is_global_model_most_recent` branch of
`ZMQInterfaceModel.receive` (zmq_interface.py): parse the data frame with
`int(frame.decode())` — raising `ValueError` on garbage — apply the
staleness predicate to the integer, and reply with `send_pyobj` on the
pickled boolean. -/
def zmqModelReply (pred : PyVal → Bool) (data : String) : Except PyErr PyVal :=
  match natParse data with
  | none => .error .valueError
  | some n => .ok (.pyBool (pred (.pyInt n)))

/-- Embeds the `is_global_model_most_recent` branch of
`ZQMInterfaceModel.receive` (zqm_interface.py): apply the staleness
predicate to the raw data frame, and reply with plain `socket.send` on
the resulting boolean. -/
def zqmModelReply (pred : PyVal → Bool) (data : String) : Except PyErr PyVal :=
  sendRaw (.pyBool (pred (.pyBytes data)))

/-- Embeds the front-to-back round trip of
`ZQMInterfaceServer.is_global_model_most_recent_send` in zmq_interface.py:
send the tag frame and `str(model_version).encode('utf-8')`, have the model
side handle it, and hand `recv_pyobj`'s result to the caller. -/
def zmqIsMostRecentExchange (pred : PyVal → Bool) (v : PyVal) :
    Except PyErr PyVal :=
  match sendMultipartOk [.pyBytes tagIsMostRecent, .pyBytes (pyStrOf natRepr v)] with
  | .error e => .error e
  | .ok [_tag, data] => zmqModelReply natParse pred data
  | .ok _ => .error .valueError

/-- Embeds the front-to-back round trip of
`ZQMInterfaceServer.is_global_model_most_recent_send` in zqm_interface.py:
send the tag frame and the version value unencoded, have the model side
handle it, and hand `recv`'s result to the caller. -/
def zqmIsMostRecentExchange (pred : PyVal → Bool) (v : PyVal) :
    Except PyErr PyVal :=
  match sendMultipartOk [.pyBytes tagIsMostRecent, v] with
  | .error e => .error e
  | .ok [_tag, data] => zqmModelReply pred data
  | .ok _ => .error .valueError

end Bridge

/-! ## Association-list and field-projection lemmas -/

theorem alistGet_alistSet_self {κ α : Type} [DecidableEq κ]
    (d : List (κ × α)) (k : κ) (v : α) : alistGet (alistSet d k v) k = some v := by
  induction d with
  | nil => simp [alistGet, alistSet]
  | cons hd tl ih =>
      obtain ⟨k₁, v₁⟩ := hd
      by_cases h : k₁ = k
      · simp [alistGet, alistSet, h]
      · simp [alistGet, alistSet, h, ih]

theorem alistGet_alistSet_ne {κ α : Type} [DecidableEq κ]
    (d : List (κ × α)) (k k₂ : κ) (v : α) (hne : k ≠ k₂) :
    alistGet (alistSet d k v) k₂ = alistGet d k₂ := by
  induction d with
  | nil => simp [alistGet, alistSet, hne]
  | cons hd tl ih =>
      obtain ⟨k₁, v₁⟩ := hd
      by_cases h : k₁ = k
      · subst h
        simp [alistGet, alistSet, hne]
      · simp only [alistSet, if_neg h, alistGet]
        by_cases h₂ : k₁ = k₂ <;> simp [h₂, ih]

theorem add_public_key_fields (st : WMState) (k : String) :
    (add_public_key st k).2.doAuth = st.doAuth ∧
    (add_public_key st k).2.allowedWorkers = st.allowedWorkers ∧
    (add_public_key st k).2.registeredWorkers = st.registeredWorkers ∧
    (add_public_key st k).2.clock = st.clock := by
  unfold add_public_key
  split
  · exact ⟨rfl, rfl, rfl, rfl⟩
  · split
    · exact ⟨rfl, rfl, rfl, rfl⟩
    · split
      · exact ⟨rfl, rfl, rfl, rfl⟩
      · exact ⟨rfl, rfl, rfl, rfl⟩

theorem add_public_key_mem (st : WMState) (k : String) (h : k ∈ st.publicKeys) :
    add_public_key st k = (true, st) := by
  unfold add_public_key
  split
  · rfl
  · simp [h]

theorem add_public_key_mem_of_true (st : WMState) (k : String)
    (hda : st.doAuth = true) (h : (add_public_key st k).1 = true) :
    k ∈ (add_public_key st k).2.publicKeys := by
  unfold add_public_key at h ⊢
  rw [hda] at h ⊢
  simp only [Bool.not_true, Bool.false_eq_true, if_false] at h ⊢
  by_cases hm : k ∈ st.publicKeys
  · simp [hm]
  · by_cases hv : validKey k
    · simp [hm, hv]
    · simp [hm, hv] at h

theorem delete_public_key_fields (st : WMState) (k : String) :
    (delete_public_key st k).2.doAuth = st.doAuth ∧
    (delete_public_key st k).2.allowedWorkers = st.allowedWorkers ∧
    (delete_public_key st k).2.registeredWorkers = st.registeredWorkers ∧
    (delete_public_key st k).2.clock = st.clock := by
  unfold delete_public_key
  split
  · exact ⟨rfl, rfl, rfl, rfl⟩
  · split
    · exact ⟨rfl, rfl, rfl, rfl⟩
    · exact ⟨rfl, rfl, rfl, rfl⟩

theorem generate_id_fields (hashTime : Nat → String) (st : WMState) (k : String) :
    (generate_id_for_worker hashTime st k).2.doAuth = st.doAuth ∧
    (generate_id_for_worker hashTime st k).2.publicKeys = st.publicKeys ∧
    (generate_id_for_worker hashTime st k).2.allowedWorkers = st.allowedWorkers ∧
    (generate_id_for_worker hashTime st k).2.registeredWorkers = st.registeredWorkers := by
  unfold generate_id_for_worker
  split
  · exact ⟨rfl, rfl, rfl, rfl⟩
  · exact ⟨rfl, rfl, rfl, rfl⟩

/-! ## Claim theorems -/

/-- C1 (counterexample).  The claim says `remove_worker` removes the
identity's `RegistrationStatus` entry so that `is_worker_registered`
afterwards returns false.  Concretely: start a fresh unauthenticated
manager, add a worker, register it, remove it; `remove_worker` returns the
identity, yet `is_worker_registered` still returns true afterwards. -/
theorem C1_remove_keeps_registration_counterexample :
    (let st := (set_registration_status
        (wmAddState Nat.repr (initWM false) "k") "0_unauthenticated" true).2
     is_worker_allowed st "0_unauthenticated" = true ∧
     (remove_worker st "0_unauthenticated").1 = "0_unauthenticated" ∧
     is_worker_registered (remove_worker st "0_unauthenticated").2
        "0_unauthenticated" = true) := by
  decide

/-- C1 (amended).  For an identity in `AllowedWorkers` (tables free of
duplicates, as every reachable manager state is), `remove_worker` returns
the identity, removes it from `AllowedWorkers` and — in authenticated
mode — from `PublicKey`, so that `is_worker_allowed` afterwards returns
false; but the `RegistrationStatus` table is left untouched, so
`is_worker_registered` afterwards returns exactly what it returned before
(not necessarily false).  For an identity not in `AllowedWorkers` it
returns `INVALID_WORKER` and changes nothing. -/
theorem C1_remove_worker_amended (st : WMState) (w : String)
    (hnd : st.allowedWorkers.Nodup) (hk : st.publicKeys.Nodup) :
    (w ∈ st.allowedWorkers →
      (remove_worker st w).1 = w ∧
      is_worker_allowed (remove_worker st w).2 w = false ∧
      (st.doAuth = true → w ∉ (remove_worker st w).2.publicKeys) ∧
      (remove_worker st w).2.registeredWorkers = st.registeredWorkers ∧
      is_worker_registered (remove_worker st w).2 w = is_worker_registered st w) ∧
    (w ∉ st.allowedWorkers → remove_worker st w = (INVALID_WORKER, st)) := by
  constructor
  · intro hw
    by_cases hda : st.doAuth
    · by_cases hkm : w ∈ st.publicKeys
      · simp [remove_worker, if_pos hw, delete_public_key, is_worker_allowed,
          is_worker_registered, hda, hkm, hnd.not_mem_erase, hk.not_mem_erase]
      · simp [remove_worker, if_pos hw, delete_public_key, is_worker_allowed,
          is_worker_registered, hda, hkm, hnd.not_mem_erase]
    · simp only [Bool.not_eq_true] at hda
      simp [remove_worker, if_pos hw, delete_public_key, is_worker_allowed,
        is_worker_registered, hda, hnd.not_mem_erase]
  · intro hw
    simp [remove_worker, hw]

/-- C1 (witness): the amended theorem applied to the concrete singleton
state from the counterexample run. -/
theorem C1_remove_worker_amended_witness :
    (let st : WMState :=
      { doAuth := false, publicKeys := [], allowedWorkers := ["w0"],
        registeredWorkers := [("w0", true)], clock := 1 }
     (remove_worker st "w0").1 = "w0" ∧
     is_worker_allowed (remove_worker st "w0").2 "w0" = false ∧
     is_worker_registered (remove_worker st "w0").2 "w0" =
       is_worker_registered st "w0") :=
  let st : WMState :=
    { doAuth := false, publicKeys := [], allowedWorkers := ["w0"],
      registeredWorkers := [("w0", true)], clock := 1 }
  have h := (C1_remove_worker_amended st "w0" (by decide) (by decide)).1 (by decide)
  ⟨h.1, h.2.1, h.2.2.2.2⟩

/-- C5.  With authentication enabled, `authenticate_worker` returns false
for a key never inserted into `public_keys`; for an inserted key it
returns true on a message carrying a signature made with that key over the
attached payload, and false on a message whose signature was made over a
different payload than the attached one. -/
theorem C5_authenticate_worker_fail_closed (st : WMState) (k : String)
    (hda : st.doAuth = true) :
    (∀ m, k ∉ st.publicKeys → authenticate_worker st k m = .ok false) ∧
    (∀ p, k ∈ st.publicKeys →
      authenticate_worker st k (.sig k p p) = .ok true) ∧
    (∀ p q, k ∈ st.publicKeys → q ≠ p →
      authenticate_worker st k (.sig k q p) = .ok false) := by
  refine ⟨fun m hm => ?_, fun p hk => ?_, fun p q hk hqp => ?_⟩
  · simp [authenticate_worker, hda, hm]
  · simp [authenticate_worker, hda, hk, verifyMsg]
  · simp [authenticate_worker, hda, hk, verifyMsg, hqp]

/-- C5 (witness): the theorem applied to a concrete one-key state, a fresh
key, a correctly signed message and a mis-signed one. -/
theorem C5_authenticate_worker_fail_closed_witness :
    authenticate_worker
      { doAuth := true, publicKeys := [], allowedWorkers := [],
        registeredWorkers := [], clock := 0 } "kA" (.raw "6a6b") = .ok false ∧
    authenticate_worker
      { doAuth := true, publicKeys := ["kA"], allowedWorkers := ["kA"],
        registeredWorkers := [("kA", false)], clock := 0 } "kA"
      (.sig "kA" "payload" "payload") = .ok true ∧
    authenticate_worker
      { doAuth := true, publicKeys := ["kA"], allowedWorkers := ["kA"],
        registeredWorkers := [("kA", false)], clock := 0 } "kA"
      (.sig "kA" "other" "payload") = .ok false :=
  have h := C5_authenticate_worker_fail_closed
    { doAuth := true, publicKeys := ["kA"], allowedWorkers := ["kA"],
      registeredWorkers := [("kA", false)], clock := 0 } "kA" (by decide)
  have h₂ := C5_authenticate_worker_fail_closed
    { doAuth := true, publicKeys := [], allowedWorkers := [],
      registeredWorkers := [], clock := 0 } "kA" (by decide)
  ⟨h₂.1 (.raw "6a6b") (by decide),
    h.2.1 "payload" (by decide),
    h.2.2 "payload" "other" (by decide) (by decide)⟩

/-- C6 (counterexample).  The claim says `authenticate_and_add_worker`
never lets an exception escape, even on malformed (non-hex) signed
payloads.  Concretely: add a valid 64-hex-digit key to a fresh safe-mode
manager, then call `authenticate_and_add_worker` for that key with the
non-hex signed payload "zz": the hex decoder raises `binascii.Error`,
which the `except BadSignatureError` handler does not catch, and the
exception escapes. -/
theorem C6_exception_escapes_counterexample :
    authenticate_and_add_worker Nat.repr
      (wmAddState Nat.repr (initWM true) (String.mk (List.replicate 64 'a')))
      (String.mk (List.replicate 64 'a')) (SignedMsg.raw "zz") =
      .error .binasciiError := by
  decide

/-- C6 (amended).  `authenticate_and_add_worker` returns normally with a
`(worker id, success)` pair for every signed payload that hex-decodes —
and for every payload at all when the key is absent or authentication is
disabled; on authentication failure it returns `(INVALID_WORKER, false)`
and leaves the state (hence `AllowedWorkers`, `RegistrationStatus` and
`PublicKey`) unchanged.  The exception escapes exactly when authentication
is enabled, the key is stored, and the signed payload does not hex-decode:
then the call raises `binascii.Error`. -/
theorem C6_authenticate_and_add_amended (hashTime : Nat → String)
    (st : WMState) (k : String) (m : SignedMsg) :
    (msgDecodable m = true →
      ∃ r, authenticate_and_add_worker hashTime st k m = .ok r) ∧
    (¬(st.doAuth = true ∧ k ∈ st.publicKeys) →
      ∃ r, authenticate_and_add_worker hashTime st k m = .ok r) ∧
    (authenticate_worker st k m = .ok false →
      authenticate_and_add_worker hashTime st k m =
        .ok ((INVALID_WORKER, false), st)) ∧
    (st.doAuth = true → k ∈ st.publicKeys → msgDecodable m = false →
      authenticate_and_add_worker hashTime st k m = .error .binasciiError) := by
  have hdec : msgDecodable m = true → verifyMsg k m ≠ .decodeError := by
    intro hd
    cases m with
    | raw s =>
        simp only [msgDecodable] at hd
        simp [verifyMsg, hd]
    | sig key so at' =>
        simp only [verifyMsg]
        split <;> simp
  refine ⟨fun hd => ?_, fun hna => ?_, fun hf => ?_, fun hda hk hd => ?_⟩
  · unfold authenticate_and_add_worker authenticate_worker
    by_cases hda : st.doAuth
    · by_cases hk : k ∈ st.publicKeys
      · simp only [hda, hk, Bool.not_true, Bool.false_eq_true, if_false, not_true,
          if_neg, ite_false]
        rcases hout : verifyMsg k m with _ | _ | _
        · simp [hout]
        · simp [hout]
        · exact absurd hout (hdec hd)
      · simp [hda, hk]
    · simp only [Bool.not_eq_true] at hda
      simp [hda]
  · unfold authenticate_and_add_worker authenticate_worker
    by_cases hda : st.doAuth
    · have hk : k ∉ st.publicKeys := fun hk => hna ⟨hda, hk⟩
      simp [hda, hk]
    · simp only [Bool.not_eq_true] at hda
      simp [hda]
  · unfold authenticate_and_add_worker
    rw [hf]
  · unfold authenticate_and_add_worker authenticate_worker
    have hout : verifyMsg k m = .decodeError := by
      cases m with
      | raw s =>
          simp only [msgDecodable] at hd
          simp [verifyMsg, hd]
      | sig key so at' => simp [msgDecodable] at hd
    simp [hda, hk, hout]

/-- C6 (witness): the amended theorem applied to concrete inputs — a
decodable mis-signed message on an unknown key returns the sentinel with
the state unchanged, and a non-hex payload on a stored key raises. -/
theorem C6_authenticate_and_add_amended_witness :
    authenticate_and_add_worker Nat.repr
      { doAuth := true, publicKeys := [], allowedWorkers := [],
        registeredWorkers := [], clock := 0 } "kA" (.raw "6a6b") =
      .ok ((INVALID_WORKER, false),
        { doAuth := true, publicKeys := [], allowedWorkers := [],
          registeredWorkers := [], clock := 0 }) ∧
    authenticate_and_add_worker Nat.repr
      { doAuth := true, publicKeys := ["kA"], allowedWorkers := [],
        registeredWorkers := [], clock := 0 } "kA" (.raw "zz") =
      .error .binasciiError :=
  ⟨(C6_authenticate_and_add_amended Nat.repr
      { doAuth := true, publicKeys := [], allowedWorkers := [],
        registeredWorkers := [], clock := 0 } "kA" (.raw "6a6b")).2.2.1
      (by decide),
    (C6_authenticate_and_add_amended Nat.repr
      { doAuth := true, publicKeys := ["kA"], allowedWorkers := [],
        registeredWorkers := [], clock := 0 } "kA" (.raw "zz")).2.2.2
      (by decide) (by decide) (by decide)⟩

/-- C7 (counterexample).  The claim says two `add_worker` calls with the
same public key yield the same identity, with the second reporting
`created = false` and the allowed-set size unchanged.  In unauthenticated
mode `generate_id_for_worker` mints a fresh identity on every call, so the
two calls yield distinct identities, the second also reports
`created = true`, and the allowed set grows from one to two. -/
theorem C7_unauth_add_not_idempotent_counterexample :
    (add_worker Nat.repr (initWM false) "k").1 = ("0_unauthenticated", true) ∧
    (add_worker Nat.repr (add_worker Nat.repr (initWM false) "k").2 "k").1 =
      ("1_unauthenticated", true) ∧
    (add_worker Nat.repr (initWM false) "k").2.allowedWorkers.length = 1 ∧
    (add_worker Nat.repr
      (add_worker Nat.repr (initWM false) "k").2 "k").2.allowedWorkers.length = 2 := by
  decide

/-- C7 (amended).  With authentication enabled and a well-formed key,
calling `add_worker` twice with the same public key yields the identity
`k` both times; the second call returns `created = false` and leaves the
state — in particular the allowed-set size — exactly as after the first
call.  (In unauthenticated mode every call mints a distinct fresh
identity with `created = true`.) -/
theorem C7_idempotent_add_auth (hashTime : Nat → String) (st : WMState)
    (k : String) (hda : st.doAuth = true) (hv : validKey k = true) :
    (add_worker hashTime st k).1.1 = k ∧
    (add_worker hashTime (add_worker hashTime st k).2 k).1 = (k, false) ∧
    (add_worker hashTime (add_worker hashTime st k).2 k).2 =
      (add_worker hashTime st k).2 := by
  have hpk1 : (add_public_key st k).1 = true := by
    unfold add_public_key
    rw [hda]
    by_cases hm : k ∈ st.publicKeys <;> simp [hm, hv]
  have hmem : k ∈ (add_public_key st k).2.publicKeys :=
    add_public_key_mem_of_true st k hda hpk1
  have hda₁ : (add_public_key st k).2.doAuth = true := by
    rw [(add_public_key_fields st k).1, hda]
  -- the first call dispatches to `_add_worker` on the post-key state
  have h₁ : add_worker hashTime st k = _add_worker hashTime (add_public_key st k).2 k := by
    unfold add_worker
    rw [hda, hpk1]
    simp
  set st₁ := (add_public_key st k).2 with hst₁
  -- `_add_worker` in authenticated mode with the key stored
  have hgen : generate_id_for_worker hashTime st₁ k = (k, st₁) := by
    unfold generate_id_for_worker
    rw [hda₁]
    simp
  have hguard : ¬(st₁.doAuth = true ∧ k ∉ st₁.publicKeys) := fun hc => hc.2 hmem
  by_cases hal : k ∈ st₁.allowedWorkers
  · -- already allowed: first call returns (k, false) and does not change state
    have hfirst : _add_worker hashTime st₁ k = ((k, false), st₁) := by
      unfold _add_worker
      rw [hgen]
      simp [hguard, hal]
    have hsecond : add_worker hashTime st₁ k = ((k, false), st₁) := by
      unfold add_worker
      rw [hda₁, add_public_key_mem st₁ k hmem]
      unfold _add_worker
      rw [hgen]
      simp [hguard, hal]
    rw [h₁, hfirst]
    exact ⟨rfl, by rw [hsecond], by rw [hsecond]⟩
  · -- new worker: first call inserts, second finds it present
    have hfirst : _add_worker hashTime st₁ k = ((k, true),
        { st₁ with allowedWorkers := st₁.allowedWorkers ++ [k],
                   registeredWorkers := alistSet st₁.registeredWorkers k false }) := by
      unfold _add_worker
      rw [hgen]
      simp [hguard, hal]
    set st₂ : WMState :=
      { st₁ with allowedWorkers := st₁.allowedWorkers ++ [k],
                 registeredWorkers := alistSet st₁.registeredWorkers k false } with hst₂
    have hda₂ : st₂.doAuth = true := hda₁
    have hmem₂ : k ∈ st₂.publicKeys := hmem
    have hal₂ : k ∈ st₂.allowedWorkers := by
      simp [hst₂]
    have hgen₂ : generate_id_for_worker hashTime st₂ k = (k, st₂) := by
      unfold generate_id_for_worker
      rw [hda₂]
      simp
    have hsecond : add_worker hashTime st₂ k = ((k, false), st₂) := by
      unfold add_worker
      rw [hda₂, add_public_key_mem st₂ k hmem₂]
      unfold _add_worker
      rw [hgen₂]
      simp [hal₂, hmem, hmem₂]
    rw [h₁, hfirst]
    exact ⟨rfl, by rw [hsecond], by rw [hsecond]⟩

/-- C7 (witness): the amended theorem applied to a fresh safe-mode manager
and the 64-character hex key of all `a` digits. -/
theorem C7_idempotent_add_auth_witness :
    (add_worker Nat.repr (initWM true) (String.mk (List.replicate 64 'a'))).1.1 =
      String.mk (List.replicate 64 'a') ∧
    (add_worker Nat.repr
      (add_worker Nat.repr (initWM true) (String.mk (List.replicate 64 'a'))).2
      (String.mk (List.replicate 64 'a'))).1 =
      (String.mk (List.replicate 64 'a'), false) :=
  have h := C7_idempotent_add_auth Nat.repr (initWM true)
    (String.mk (List.replicate 64 'a')) (by decide) (by decide)
  ⟨h.1, h.2.1⟩

/-- In unauthenticated mode the identities produced by iterating
`generate_id_for_worker` are the hashed successive clock readings,
independent of the caller arguments. -/
theorem genIds_unauth_shape (hashTime : Nat → String) (st : WMState)
    (keys : List String) (hda : st.doAuth = false) :
    (genIds hashTime st keys).1 =
      (List.range keys.length).map
        (fun i => hashTime (st.clock + i) ++ "_unauthenticated") := by
  induction keys generalizing st with
  | nil => simp [genIds]
  | cons k ks ih =>
      have hgen : generate_id_for_worker hashTime st k =
          (hashTime st.clock ++ "_unauthenticated", { st with clock := st.clock + 1 }) := by
        unfold generate_id_for_worker
        rw [hda]
        simp
      have hrec := ih { st with clock := st.clock + 1 } hda
      simp only [genIds, hgen, hrec, List.length_cons, List.range_succ_eq_map,
        List.map_cons, List.map_map, Nat.add_zero, List.cons.injEq, true_and]
      apply List.map_congr_left
      intro i _
      simp only [Function.comp_apply]
      congr 2
      omega

/-- C8.  With authentication disabled, iterating `generate_id_for_worker`
over any list of caller arguments — identical arguments included —
produces pairwise-distinct identities.  The system clock yields a fresh
reading at each call (the embedding's clock counter) and the sha224 hex
digest of the printed readings is collision-free on them (the injectivity
hypothesis on `hashTime`). -/
theorem C8_unauth_ids_distinct (hashTime : Nat → String) (st : WMState)
    (keys : List String) (hda : st.doAuth = false)
    (hinj : Function.Injective hashTime) :
    (genIds hashTime st keys).1.Nodup := by
  rw [genIds_unauth_shape hashTime st keys hda]
  refine List.Nodup.map ?_ (List.nodup_range _)
  intro a b hab
  have hdata : (hashTime (st.clock + a)).data ++ "_unauthenticated".data =
      (hashTime (st.clock + b)).data ++ "_unauthenticated".data := by
    have := congrArg String.data hab
    simpa [String.data_append] using this
  have hkey : hashTime (st.clock + a) = hashTime (st.clock + b) :=
    String.ext (List.append_cancel_right hdata)
  have := hinj hkey
  omega

/-- C8 (witness): the theorem applied to a concrete injective digest model,
a fresh unauthenticated manager and three identical caller arguments. -/
theorem C8_unauth_ids_distinct_witness :
    (genIds (fun n => String.mk (List.replicate n 'a')) (initWM false)
      ["k", "k", "k"]).1.Nodup :=
  C8_unauth_ids_distinct (fun n => String.mk (List.replicate n 'a'))
    (initWM false) ["k", "k", "k"] (by decide)
    (fun a b h => by
      have := congrArg (fun s : String => s.data.length) h
      simpa using this)

/-- C10.  With authentication enabled, the `message_seriously_wrong` branch
of `_add_worker` — taken exactly when `addWorkerInternalGuard` holds at its
entry — is unreachable through the public entry points: `add_worker`
either fails with the INVALID sentinel before reaching `_add_worker` or
reaches it in a state where the key is stored (guard false), and
`authenticate_and_add_worker` either returns the INVALID sentinel without
reaching `_add_worker` or reaches it with the key stored (guard false). -/
theorem C10_internal_error_branch_unreachable (hashTime : Nat → String)
    (st : WMState) (k : String) (m : SignedMsg) (hda : st.doAuth = true) :
    ((add_public_key st k).1 = true →
      ¬ addWorkerInternalGuard (add_public_key st k).2 k) ∧
    (authenticate_worker st k m = .ok true → ¬ addWorkerInternalGuard st k) ∧
    (add_worker hashTime st k = ((INVALID_WORKER, false), (add_public_key st k).2) ∨
      ((add_public_key st k).1 = true ∧
        add_worker hashTime st k = _add_worker hashTime (add_public_key st k).2 k ∧
        ¬ addWorkerInternalGuard (add_public_key st k).2 k)) ∧
    (∀ r, authenticate_and_add_worker hashTime st k m = .ok r →
      r = ((INVALID_WORKER, false), st) ∨
      (r = _add_worker hashTime st k ∧ ¬ addWorkerInternalGuard st k)) := by
  have hpart1 : (add_public_key st k).1 = true →
      ¬ addWorkerInternalGuard (add_public_key st k).2 k := by
    intro h hg
    exact hg.2 (add_public_key_mem_of_true st k hda h)
  have hpart2 : authenticate_worker st k m = .ok true →
      ¬ addWorkerInternalGuard st k := by
    intro h hg
    unfold authenticate_worker at h
    rw [hda] at h
    simp only [Bool.not_true, Bool.false_eq_true, if_false] at h
    by_cases hk : k ∈ st.publicKeys
    · exact hg.2 hk
    · simp [hk] at h
  refine ⟨hpart1, hpart2, ?_, ?_⟩
  · by_cases hpk : (add_public_key st k).1 = true
    · refine Or.inr ⟨hpk, ?_, hpart1 hpk⟩
      unfold add_worker
      rw [hda, hpk]
      simp
    · refine Or.inl ?_
      unfold add_worker
      rw [hda]
      simp only [Bool.not_eq_true] at hpk
      rw [hpk]
      simp
  · intro r hr
    unfold authenticate_and_add_worker at hr
    rcases hauth : authenticate_worker st k m with e | b
    · rw [hauth] at hr
      exact absurd hr (by simp)
    · rw [hauth] at hr
      cases b with
      | false =>
          simp only at hr
          exact Or.inl (by injection hr with h; exact h.symm)
      | true =>
          simp only at hr
          exact Or.inr ⟨by injection hr with h; exact h.symm, hpart2 hauth⟩

/-- C10 (witness): the theorem applied to a fresh safe-mode manager, the
all-`a` hex key and a correctly signed message. -/
theorem C10_internal_error_branch_unreachable_witness :
    ¬ addWorkerInternalGuard
      (add_public_key (initWM true) (String.mk (List.replicate 64 'a'))).2
      (String.mk (List.replicate 64 'a')) ∧
    ¬ addWorkerInternalGuard
      { doAuth := true, publicKeys := [String.mk (List.replicate 64 'a')],
        allowedWorkers := [], registeredWorkers := [], clock := 0 }
      (String.mk (List.replicate 64 'a')) :=
  ⟨(C10_internal_error_branch_unreachable Nat.repr (initWM true)
      (String.mk (List.replicate 64 'a'))
      (.sig (String.mk (List.replicate 64 'a')) "p" "p") (by decide)).1
      (by decide),
    (C10_internal_error_branch_unreachable Nat.repr
      { doAuth := true, publicKeys := [String.mk (List.replicate 64 'a')],
        allowedWorkers := [], registeredWorkers := [], clock := 0 }
      (String.mk (List.replicate 64 'a'))
      (.sig (String.mk (List.replicate 64 'a')) "p" "p") (by decide)).2.1
      (by rfl)⟩

/-- Inserting a fresh worker with registration flag false preserves the
allow/register coupling. -/
theorem regSub_insert {allowed : List String} {reg : List (String × Bool)}
    {x : String} (h : regSub allowed reg) :
    regSub (allowed ++ [x]) (alistSet reg x false) := by
  intro w hw
  by_cases hx : w = x
  · subst hx
    rw [alistGet_alistSet_self] at hw
    simp at hw
  · rw [alistGet_alistSet_ne _ _ _ _ (fun hh => hx hh.symm)] at hw
    exact List.mem_append_left _ (h w hw)

/-- `_add_worker` preserves the allow/register coupling. -/
theorem regSub_add_worker_internal (hashTime : Nat → String) (st : WMState)
    (k : String) (h : regSub st.allowedWorkers st.registeredWorkers) :
    regSub (_add_worker hashTime st k).2.allowedWorkers
      (_add_worker hashTime st k).2.registeredWorkers := by
  have hf := generate_id_fields hashTime st k
  unfold _add_worker
  dsimp only
  split
  · rw [hf.2.2.1, hf.2.2.2]
    exact h
  · split
    · show regSub ((generate_id_for_worker hashTime st k).2.allowedWorkers ++ [_])
        (alistSet (generate_id_for_worker hashTime st k).2.registeredWorkers _ false)
      rw [hf.2.2.1, hf.2.2.2]
      exact regSub_insert h
    · rw [hf.2.2.1, hf.2.2.2]
      exact h

/-- `add_worker` preserves the allow/register coupling. -/
theorem regSub_wmAdd (hashTime : Nat → String) (st : WMState) (k : String)
    (h : regSub st.allowedWorkers st.registeredWorkers) :
    regSub (wmAddState hashTime st k).allowedWorkers
      (wmAddState hashTime st k).registeredWorkers := by
  have hf := add_public_key_fields st k
  unfold wmAddState add_worker
  split
  · split
    · have h₁ : regSub (add_public_key st k).2.allowedWorkers
          (add_public_key st k).2.registeredWorkers := by
        rw [hf.2.1, hf.2.2.1]
        exact h
      exact regSub_add_worker_internal hashTime _ k h₁
    · rw [hf.2.1, hf.2.2.1]
      exact h
  · exact regSub_add_worker_internal hashTime st k h

/-- `authenticate_and_add_worker` preserves the allow/register coupling. -/
theorem regSub_wmAuthAdd (hashTime : Nat → String) (st : WMState)
    (k : String) (m : SignedMsg)
    (h : regSub st.allowedWorkers st.registeredWorkers) :
    regSub (wmAuthAddState hashTime st k m).allowedWorkers
      (wmAuthAddState hashTime st k m).registeredWorkers := by
  unfold wmAuthAddState authenticate_and_add_worker
  rcases hauth : authenticate_worker st k m with e | b
  · exact h
  · cases b with
    | false => exact h
    | true => exact regSub_add_worker_internal hashTime st k h

/-- `set_registration_status` preserves the allow/register coupling (a
status is only ever set for an allowed worker). -/
theorem regSub_setStatus (st : WMState) (w : String) (b : Bool)
    (h : regSub st.allowedWorkers st.registeredWorkers) :
    regSub (set_registration_status st w b).2.allowedWorkers
      (set_registration_status st w b).2.registeredWorkers := by
  unfold set_registration_status
  split
  · next hw =>
      intro v hv
      dsimp only at hv ⊢
      by_cases hvw : v = w
      · subst hvw
        exact hw
      · rw [alistGet_alistSet_ne _ _ _ _ (fun hh => hvw hh.symm)] at hv
        exact h v hv
  · exact h

/-- `remove_worker` applied to a currently-unregistered worker preserves
the allow/register coupling. -/
theorem regSub_remove (st : WMState) (w : String)
    (hreg : is_worker_registered st w = false)
    (h : regSub st.allowedWorkers st.registeredWorkers) :
    regSub (remove_worker st w).2.allowedWorkers
      (remove_worker st w).2.registeredWorkers := by
  have hf := delete_public_key_fields
    { st with allowedWorkers := st.allowedWorkers.erase w } w
  unfold remove_worker
  split
  · rw [hf.2.1, hf.2.2.1]
    intro v hv
    have hvw : v ≠ w := by
      rintro rfl
      rw [is_worker_registered] at hreg
      rw [hreg] at hv
      exact Bool.false_ne_true hv
    exact (List.mem_erase_of_ne hvw).mpr (h v hv)
  · exact h

/-- C2 (counterexample).  The claim quantifies over all call sequences,
including removals of registered workers.  Concretely: in a fresh
unauthenticated manager, add a worker, register it, then remove it —
`remove_worker` leaves the `registered_workers` entry behind, so the
resulting reachable state has `is_worker_registered` true while
`is_worker_allowed` is false. -/
theorem C2_registered_without_allowed_counterexample :
    (let st := (remove_worker
        (set_registration_status (wmAddState Nat.repr (initWM false) "k")
          "0_unauthenticated" true).2 "0_unauthenticated").2
     is_worker_registered st "0_unauthenticated" = true ∧
     is_worker_allowed st "0_unauthenticated" = false) := by
  decide

/-- C2 (amended).  In every registry state reachable from the initial
state by `add_worker`, `authenticate_and_add_worker`,
`set_registration_status`, and `remove_worker` applied only to identities
that are not currently registered — the discipline the server's admin
removal path follows by unregistering first — every identity for which
`is_worker_registered` returns true is also one for which
`is_worker_allowed` returns true. -/
theorem C2_registered_implies_allowed_amended (hashTime : Nat → String)
    (st : WMState) (h : WMReachUnregRemove hashTime st) (w : String)
    (hw : is_worker_registered st w = true) : is_worker_allowed st w = true := by
  suffices hs : regSub st.allowedWorkers st.registeredWorkers by
    have := hs w hw
    simpa [is_worker_allowed] using this
  clear hw w
  induction h with
  | init d => intro v hv; simp [initWM, alistGet] at hv
  | add h k ih => exact regSub_wmAdd hashTime _ k ih
  | authAdd h k m ih => exact regSub_wmAuthAdd hashTime _ k m ih
  | setStatus h v b ih => exact regSub_setStatus _ v b ih
  | remove h v hv ih => exact regSub_remove _ v hv ih

/-- C2 (witness): the amended theorem applied to the concrete reachable
state obtained by adding and then registering one unauthenticated worker. -/
theorem C2_registered_implies_allowed_amended_witness :
    is_worker_allowed
      (set_registration_status (wmAddState Nat.repr (initWM false) "k")
        "0_unauthenticated" true).2 "0_unauthenticated" = true :=
  C2_registered_implies_allowed_amended Nat.repr _
    (WMReachUnregRemove.setStatus
      (WMReachUnregRemove.add (WMReachUnregRemove.init false) "k")
      "0_unauthenticated" true)
    "0_unauthenticated" (by decide)

/-! ## Notification-engine invariants -/

theorem getLast?_none_eq_nil {α : Type} {l : List α} (h : l.getLast? = none) :
    l = [] := by
  cases l with
  | nil => rfl
  | cons a l => simp [List.getLast?_cons] at h

theorem supersedeOld_nextReq (s : SysState) (w : String) :
    (supersedeOld s w).nextReq = s.nextReq := by
  unfold supersedeOld
  cases h : (reqsOf s w).getLast? <;> rfl

theorem supersedeOld_wm (s : SysState) (w : String) :
    (supersedeOld s w).wm = s.wm := by
  unfold supersedeOld
  cases h : (reqsOf s w).getLast? <;> rfl

theorem reqsOf_supersedeOld_self (s : SysState) (w : String) :
    reqsOf (supersedeOld s w) w = (reqsOf s w).dropLast := by
  unfold supersedeOld
  cases h : (reqsOf s w).getLast? with
  | none => rw [getLast?_none_eq_nil h]; rfl
  | some r => simp [reqsOf, alistGet_alistSet_self]

theorem reqsOf_supersedeOld_ne (s : SysState) (w w₁ : String) (hne : w ≠ w₁) :
    reqsOf (supersedeOld s w) w₁ = reqsOf s w₁ := by
  unfold supersedeOld
  cases h : (reqsOf s w).getLast? with
  | none => rfl
  | some r => simp [reqsOf, alistGet_alistSet_ne _ _ _ _ hne]

theorem supersedeOld_live_subset (s : SysState) (w : String) :
    (supersedeOld s w).live ⊆ s.live := by
  unfold supersedeOld
  cases h : (reqsOf s w).getLast? with
  | none => exact fun p hp => hp
  | some r => exact List.erase_subset _ _

theorem supersedeOld_live_nodup (s : SysState) (w : String)
    (h : s.live.Nodup) : (supersedeOld s w).live.Nodup := by
  unfold supersedeOld
  cases hl : (reqsOf s w).getLast? with
  | none => exact h
  | some r => exact h.erase (r, w)

theorem applyNewReq_nextReq (s : SysState) (w : String) :
    (applyNewReq s w).nextReq = s.nextReq + 1 := by
  unfold applyNewReq
  dsimp only
  rw [supersedeOld_nextReq]

theorem applyNewReq_wm (s : SysState) (w : String) :
    (applyNewReq s w).wm = s.wm := by
  unfold applyNewReq
  dsimp only
  rw [supersedeOld_wm]

theorem applyNewReq_live (s : SysState) (w : String) :
    (applyNewReq s w).live = (supersedeOld s w).live ++ [(s.nextReq, w)] := by
  unfold applyNewReq
  dsimp only
  rw [supersedeOld_nextReq]

theorem reqsOf_applyNewReq_self (s : SysState) (w : String) :
    reqsOf (applyNewReq s w) w = (reqsOf s w).dropLast ++ [s.nextReq] := by
  have h₁ := reqsOf_supersedeOld_self s w
  simp only [applyNewReq, reqsOf] at h₁ ⊢
  rw [alistGet_alistSet_self, Option.getD_some, supersedeOld_nextReq, h₁]

theorem reqsOf_applyNewReq_ne (s : SysState) (w w₁ : String) (hne : w ≠ w₁) :
    reqsOf (applyNewReq s w) w₁ = reqsOf s w₁ := by
  have h₁ := reqsOf_supersedeOld_ne s w w₁ hne
  simp only [applyNewReq, reqsOf] at h₁ ⊢
  rw [alistGet_alistSet_ne _ _ _ _ hne, h₁]

theorem applyResolve_live (s : SysState) (w : String) (r : Nat) :
    (applyResolve s w r).live = s.live.erase (r, w) := rfl

theorem applyResolve_nextReq (s : SysState) (w : String) (r : Nat) :
    (applyResolve s w r).nextReq = s.nextReq := rfl

theorem reqsOf_applyResolve_self (s : SysState) (w : String) (r : Nat) :
    reqsOf (applyResolve s w r) w = (reqsOf s w).dropLast := by
  simp only [applyResolve, reqsOf]
  rw [alistGet_alistSet_self, Option.getD_some]

theorem reqsOf_applyResolve_ne (s : SysState) (w w₁ : String) (r : Nat)
    (hne : w ≠ w₁) : reqsOf (applyResolve s w r) w₁ = reqsOf s w₁ := by
  simp only [applyResolve, reqsOf]
  rw [alistGet_alistSet_ne _ _ _ _ hne]

/-- One step of the server preserves the notification-engine invariant. -/
theorem sysInv_step (hashTime : Nat → String) {s s₁ : SysState}
    (hstep : SysStep hashTime s s₁) (h : SysInv s) : SysInv s₁ := by
  obtain ⟨hpend, ⟨hfreshReq, hfreshLive⟩, hnd⟩ := h
  cases hstep with
  | newReq w =>
      have hsub := supersedeOld_live_subset s w
      refine ⟨?_, ⟨?_, ?_⟩, ?_⟩
      · intro w₁
        by_cases hw : w = w₁
        · subst hw
          rw [reqsOf_applyNewReq_self]
          have := hpend w
          simp only [List.length_append, List.length_dropLast, List.length_cons,
            List.length_nil]
          omega
        · rw [reqsOf_applyNewReq_ne s w w₁ hw]
          exact hpend w₁
      · intro w₁ r hr
        rw [applyNewReq_nextReq]
        by_cases hw : w = w₁
        · subst hw
          rw [reqsOf_applyNewReq_self] at hr
          rcases List.mem_append.mp hr with hmem | hmem
          · have := hfreshReq w r (List.mem_of_mem_dropLast hmem)
            omega
          · simp only [List.mem_singleton] at hmem
            omega
        · rw [reqsOf_applyNewReq_ne s w w₁ hw] at hr
          have := hfreshReq w₁ r hr
          omega
      · intro p hp
        rw [applyNewReq_nextReq]
        rw [applyNewReq_live] at hp
        rcases List.mem_append.mp hp with hmem | hmem
        · have := hfreshLive p (hsub hmem)
          omega
        · simp only [List.mem_singleton] at hmem
          rw [hmem]
          simp
      · rw [applyNewReq_live, List.nodup_append]
        refine ⟨supersedeOld_live_nodup s w hnd, List.nodup_singleton _, ?_⟩
        intro p hp
        have hlt := hfreshLive p (hsub hp)
        simp only [List.mem_singleton]
        intro hcontra
        rw [hcontra] at hlt
        simp at hlt
  | resolve w r hlive =>
      refine ⟨?_, ⟨?_, ?_⟩, ?_⟩
      · intro w₁
        by_cases hw : w = w₁
        · subst hw
          rw [reqsOf_applyResolve_self]
          have := hpend w
          simp only [List.length_dropLast]
          omega
        · rw [reqsOf_applyResolve_ne s w w₁ r hw]
          exact hpend w₁
      · intro w₁ r₁ hr
        rw [applyResolve_nextReq]
        by_cases hw : w = w₁
        · subst hw
          rw [reqsOf_applyResolve_self] at hr
          exact hfreshReq w r₁ (List.mem_of_mem_dropLast hr)
        · rw [reqsOf_applyResolve_ne s w w₁ r hw] at hr
          exact hfreshReq w₁ r₁ hr
      · intro p hp
        rw [applyResolve_nextReq]
        rw [applyResolve_live] at hp
        exact hfreshLive p (List.erase_subset _ _ hp)
      · rw [applyResolve_live]
        exact hnd.erase (r, w)
  | adminDelete w => exact ⟨hpend, ⟨hfreshReq, hfreshLive⟩, hnd⟩
  | wmAdd k => exact ⟨hpend, ⟨hfreshReq, hfreshLive⟩, hnd⟩
  | wmAuthAdd k m => exact ⟨hpend, ⟨hfreshReq, hfreshLive⟩, hnd⟩
  | wmSetStatus w b => exact ⟨hpend, ⟨hfreshReq, hfreshLive⟩, hnd⟩

/-- Every reachable server state satisfies the notification-engine
invariant. -/
theorem sysInv_reach (hashTime : Nat → String) {s : SysState}
    (h : SysReach hashTime s) : SysInv s := by
  induction h with
  | init d =>
      refine ⟨fun w => ?_, ⟨fun w r hr => ?_, fun p hp => ?_⟩, ?_⟩
      · simp [reqsOf, initSys, alistGet]
      · simp [reqsOf, initSys, alistGet] at hr
      · simp [initSys] at hp
      · simp [initSys]
  | step h hs ih => exact sysInv_step _ hs ih

theorem supersedeOld_of_single (s : SysState) (w : String) (r : Nat)
    (h : reqsOf s w = [r]) :
    supersedeOld s w =
      { s with reqDict := alistSet s.reqDict w [],
               chans := alistSet s.chans r (chanOf s r ++ [Msg.superseded]),
               live := s.live.erase (r, w) } := by
  unfold supersedeOld
  rw [h]
  rfl

theorem chanOf_applyNewReq_ne_next (s : SysState) (w : String) (r : Nat)
    (hr : r ≠ s.nextReq) :
    chanOf (applyNewReq s w) r = chanOf (supersedeOld s w) r := by
  simp only [applyNewReq, chanOf]
  rw [supersedeOld_nextReq, alistGet_alistSet_ne _ _ _ _ (fun hh => hr hh.symm)]

theorem chanOf_applyNewReq_next (s : SysState) (w : String) :
    chanOf (applyNewReq s w) s.nextReq = [] := by
  simp only [applyNewReq, chanOf]
  rw [supersedeOld_nextReq, alistGet_alistSet_self, Option.getD_some]

/-- The supersession contract at a state with a single pending entry: the
old wait's channel receives the superseded result, its greenlet is no
longer live, and the table now holds exactly the fresh request. -/
theorem applyNewReq_supersedes (s : SysState) (w : String) (r : Nat)
    (hinv : SysInv s) (h : reqsOf s w = [r]) :
    chanOf (applyNewReq s w) r = chanOf s r ++ [Msg.superseded] ∧
    (r, w) ∉ (applyNewReq s w).live ∧
    reqsOf (applyNewReq s w) w = [s.nextReq] := by
  have hrmem : r ∈ reqsOf s w := by rw [h]; exact List.mem_singleton_self r
  have hrlt : r < s.nextReq := hinv.2.1.1 w r hrmem
  have hs := supersedeOld_of_single s w r h
  refine ⟨?_, ?_, ?_⟩
  · rw [chanOf_applyNewReq_ne_next s w r (by omega), hs]
    show (alistGet (alistSet s.chans r (chanOf s r ++ [Msg.superseded])) r).getD [] = _
    rw [alistGet_alistSet_self, Option.getD_some]
  · rw [applyNewReq_live]
    intro hmem
    rcases List.mem_append.mp hmem with hm | hm
    · rw [hs] at hm
      exact (hinv.2.2).not_mem_erase hm
    · simp only [List.mem_singleton, Prod.mk.injEq] at hm
      omega
  · rw [reqsOf_applyNewReq_self, h]
    rfl

/-- One step can neither revive a dead greenlet nor lower the id counter. -/
theorem live_step_mono (hashTime : Nat → String) {s s₁ : SysState}
    (hstep : SysStep hashTime s s₁) (r : Nat) (w : String)
    (hnot : (r, w) ∉ s.live) (hlt : r < s.nextReq) :
    (r, w) ∉ s₁.live ∧ r < s₁.nextReq := by
  cases hstep with
  | newReq w₁ =>
      constructor
      · rw [applyNewReq_live]
        intro hmem
        rcases List.mem_append.mp hmem with hm | hm
        · exact hnot (supersedeOld_live_subset s w₁ hm)
        · simp only [List.mem_singleton, Prod.mk.injEq] at hm
          obtain ⟨hm₁, -⟩ := hm
          omega
      · rw [applyNewReq_nextReq]
        omega
  | resolve w₁ r₁ hlive =>
      refine ⟨?_, hlt⟩
      rw [applyResolve_live]
      intro hmem
      exact hnot (List.erase_subset _ _ hmem)
  | adminDelete w₁ => exact ⟨hnot, hlt⟩
  | wmAdd k => exact ⟨hnot, hlt⟩
  | wmAuthAdd k m => exact ⟨hnot, hlt⟩
  | wmSetStatus w₁ b => exact ⟨hnot, hlt⟩

/-- A greenlet that is dead (and has a stale id) stays dead under any
further scheduling. -/
theorem live_future (hashTime : Nat → String) {s s₁ : SysState}
    (hsteps : Relation.ReflTransGen (SysStep hashTime) s s₁) (r : Nat)
    (w : String) (hnot : (r, w) ∉ s.live) (hlt : r < s.nextReq) :
    (r, w) ∉ s₁.live := by
  have hmain : (r, w) ∉ s₁.live ∧ r < s₁.nextReq := by
    induction hsteps with
    | refl => exact ⟨hnot, hlt⟩
    | tail hsteps hstep ih => exact live_step_mono hashTime hstep r w ih.1 ih.2
  exact hmain.1

/-- C4.  In every reachable server state the pending-notification table
holds at most one entry per worker; when a new wait request arrives for a
worker whose table holds the single entry `r`, the old wait's channel
receives the superseded result, its entry is replaced by the fresh one,
and its greenlet is killed — after which no future step can ever find it
live again (in particular the `resolve` delivery of the version-changed
result, whose side condition requires liveness, is impossible for it). -/
theorem C4_single_outstanding_wait (hashTime : Nat → String) (s : SysState)
    (h : SysReach hashTime s) :
    (∀ w, (reqsOf s w).length ≤ 1) ∧
    (∀ w r, reqsOf s w = [r] →
      chanOf (applyNewReq s w) r = chanOf s r ++ [Msg.superseded] ∧
      (r, w) ∉ (applyNewReq s w).live ∧
      reqsOf (applyNewReq s w) w = [s.nextReq] ∧
      ∀ s₁, Relation.ReflTransGen (SysStep hashTime) (applyNewReq s w) s₁ →
        (r, w) ∉ s₁.live) := by
  have hinv := sysInv_reach hashTime h
  refine ⟨hinv.1, fun w r hw => ?_⟩
  have hmain := applyNewReq_supersedes s w r hinv hw
  have hrlt : r < s.nextReq :=
    hinv.2.1.1 w r (by rw [hw]; exact List.mem_singleton_self r)
  refine ⟨hmain.1, hmain.2.1, hmain.2.2, fun s₁ hsteps => ?_⟩
  refine live_future hashTime hsteps r w hmain.2.1 ?_
  rw [applyNewReq_nextReq]
  omega

/-- C4 (witness): the theorem applied to the reachable state with one
pending wait for worker `w`, then superseded by a second wait. -/
theorem C4_single_outstanding_wait_witness :
    (reqsOf (applyNewReq (initSys false) "w") "w").length ≤ 1 ∧
    chanOf (applyNewReq (applyNewReq (initSys false) "w") "w") 0 =
      chanOf (applyNewReq (initSys false) "w") 0 ++ [Msg.superseded] ∧
    (0, "w") ∉ (applyNewReq (applyNewReq (initSys false) "w") "w").live ∧
    reqsOf (applyNewReq (applyNewReq (initSys false) "w") "w") "w" = [1] := by
  have h := C4_single_outstanding_wait Nat.repr (applyNewReq (initSys false) "w")
    (SysReach.step (SysReach.init false) (SysStep.newReq _ "w"))
  have h₂ := h.2 "w" 0 (by decide)
  exact ⟨h.1 "w", h₂.1, h₂.2.1, by rw [h₂.2.2.1]; rfl⟩

theorem noRemoved_supersedeOld (s : SysState) (w : String)
    (h : ∀ r, Msg.removed ∉ chanOf s r) (r : Nat) :
    Msg.removed ∉ chanOf (supersedeOld s w) r := by
  unfold supersedeOld
  cases hl : (reqsOf s w).getLast? with
  | none => exact h r
  | some rOld =>
      show Msg.removed ∉ (alistGet (alistSet s.chans rOld
        (chanOf s rOld ++ [Msg.superseded])) r).getD []
      by_cases hr : rOld = r
      · subst hr
        rw [alistGet_alistSet_self, Option.getD_some]
        intro hmem
        rcases List.mem_append.mp hmem with hm | hm
        · exact h rOld hm
        · simp at hm
      · rw [alistGet_alistSet_ne _ _ _ _ hr]
        exact h r

/-- No step of the server ever delivers a removed result (the `Msg.removed`
constructor models the marker the spec requires; the source never produces
it). -/
theorem noRemoved_step (hashTime : Nat → String) {s s₁ : SysState}
    (hstep : SysStep hashTime s s₁) (h : ∀ r, Msg.removed ∉ chanOf s r) :
    ∀ r, Msg.removed ∉ chanOf s₁ r := by
  cases hstep with
  | newReq w =>
      intro r
      by_cases hr : r = s.nextReq
      · subst hr
        rw [chanOf_applyNewReq_next]
        simp
      · rw [chanOf_applyNewReq_ne_next s w r hr]
        exact noRemoved_supersedeOld s w h r
  | resolve w r₁ hlive =>
      intro r
      show Msg.removed ∉ (alistGet (alistSet s.chans r₁
        (chanOf s r₁ ++ [Msg.updated])) r).getD []
      by_cases hr : r₁ = r
      · subst hr
        rw [alistGet_alistSet_self, Option.getD_some]
        intro hmem
        rcases List.mem_append.mp hmem with hm | hm
        · exact h r₁ hm
        · simp at hm
      · rw [alistGet_alistSet_ne _ _ _ _ hr]
        exact h r
  | adminDelete w => exact h
  | wmAdd k => exact h
  | wmAuthAdd k m => exact h
  | wmSetStatus w b => exact h

/-- In every reachable server state, no wait's channel has ever received a
removed result. -/
theorem noRemoved_reach (hashTime : Nat → String) {s : SysState}
    (h : SysReach hashTime s) : ∀ r, Msg.removed ∉ chanOf s r := by
  induction h with
  | init d => intro r; simp [chanOf, initSys, alistGet]
  | step h hs ih => exact noRemoved_step _ hs ih

/-- C3 (counterexample).  The claim says admin removal cancels a live wait
by delivering a removed result and deleting the pending entry.  Concretely:
add an unauthenticated worker, register it, let it install a wait, then run
`admin_delete_worker`: the worker is indeed removed from the registry, but
the pending entry is still in the table, its channel has received nothing,
and its greenlet is still live. -/
theorem C3_removal_leaves_wait_counterexample :
    (let s₂ : SysState :=
      { initSys false with
        wm := (set_registration_status
          (wmAddState Nat.repr (initWM false) "k") "0_unauthenticated" true).2 }
     let s₃ := applyNewReq s₂ "0_unauthenticated"
     let s₄ := applyAdminDelete s₃ "0_unauthenticated"
     is_worker_allowed s₄.wm "0_unauthenticated" = false ∧
     reqsOf s₄ "0_unauthenticated" = [0] ∧
     chanOf s₄ 0 = [] ∧
     (0, "0_unauthenticated") ∈ s₄.live) := by
  decide

/-- C3 (amended).  Admin removal does not cancel a live wait: the
`admin_delete_worker` step leaves the pending-notification table, the
result channels and the live greenlets exactly as they were, and in every
reachable state no channel has ever received a removed result — the wait
of a removed worker can only terminate by supersession or by the
version-changed delivery. -/
theorem C3_removal_does_not_cancel_amended (hashTime : Nat → String)
    (s : SysState) (h : SysReach hashTime s) (w : String) :
    (applyAdminDelete s w).reqDict = s.reqDict ∧
    (applyAdminDelete s w).chans = s.chans ∧
    (applyAdminDelete s w).live = s.live ∧
    ∀ r, Msg.removed ∉ chanOf s r :=
  ⟨rfl, rfl, rfl, noRemoved_reach hashTime h⟩

/-- C3 (witness): the amended theorem applied to the reachable state with
one pending wait. -/
theorem C3_removal_does_not_cancel_amended_witness :
    (applyAdminDelete (applyNewReq (initSys false) "w") "w").reqDict =
      (applyNewReq (initSys false) "w").reqDict ∧
    Msg.removed ∉ chanOf (applyNewReq (initSys false) "w") 0 :=
  have h := C3_removal_does_not_cancel_amended Nat.repr
    (applyNewReq (initSys false) "w")
    (SysReach.step (SysReach.init false) (SysStep.newReq _ "w")) "w"
  ⟨h.1, h.2.2.2 0⟩

/-- C9 (counterexample).  The claim says the two bridge implementations
are behaviorally equivalent on the `IsGlobalModelMostRecent` exchange.
Concretely, for version `1` and the staleness predicate "is the integer
1": the zmq_interface pipeline returns the pickled boolean `true` to the
caller, while the zqm_interface pipeline raises `TypeError` (its model
side passes the raw bytes to the predicate and then calls plain
`socket.send` on a boolean, which is not a valid frame) and never returns
a boolean. -/
theorem C9_bridges_differ_counterexample :
    zmqIsMostRecentExchange Nat.repr pyIntParse
      (fun x => decide (x = PyVal.pyInt 1)) (PyVal.pyInt 1) =
      .ok (.pyBool true) ∧
    zqmIsMostRecentExchange (fun x => decide (x = PyVal.pyInt 1))
      (PyVal.pyInt 1) = .error .typeError := by
  decide

/-- C9 (amended).  The two bridge implementations are not behaviorally
equivalent on the `IsGlobalModelMostRecent` exchange.  The zmq_interface
variant encodes the version with `str`, parses it back with `int` on the
model side, applies the predicate to the integer, and returns the pickled
predicate boolean to the caller.  The zqm_interface variant forwards the
version frame raw: a non-bytes version already fails at `send_multipart`,
and even a bytes version reaches `socket.send` on an unserialized boolean;
either way the call raises `TypeError` and the caller never receives the
predicate's boolean. -/
theorem C9_bridges_amended (natRepr : Nat → String)
    (natParse : String → Option Nat) :
    (∀ (pred : PyVal → Bool) (v : PyVal) (n : Nat),
      natParse (pyStrOf natRepr v) = some n →
      zmqIsMostRecentExchange natRepr natParse pred v =
        .ok (.pyBool (pred (.pyInt n)))) ∧
    (∀ (pred : PyVal → Bool) (v : PyVal),
      zqmIsMostRecentExchange pred v = .error .typeError) := by
  constructor
  · intro pred v n hparse
    show zmqModelReply natParse pred (pyStrOf natRepr v) = _
    unfold zmqModelReply
    rw [hparse]
  · intro pred v
    cases v <;> rfl

/-- C9 (witness): the amended theorem applied to the decimal codec of
`Nat.repr` / `pyIntParse`, version 3, and the predicate "is the
integer 3". -/
theorem C9_bridges_amended_witness :
    zmqIsMostRecentExchange Nat.repr pyIntParse
      (fun x => decide (x = PyVal.pyInt 3)) (PyVal.pyInt 3) =
      .ok (.pyBool true) ∧
    zqmIsMostRecentExchange (fun x => decide (x = PyVal.pyInt 3))
      (PyVal.pyStr "3") = .error .typeError :=
  have h := C9_bridges_amended Nat.repr pyIntParse
  ⟨h.1 (fun x => decide (x = PyVal.pyInt 3)) (PyVal.pyInt 3) 3 (by decide),
    h.2 (fun x => decide (x = PyVal.pyInt 3)) (PyVal.pyStr "3")⟩

end DCFed
